import Mathlib

/-!
Verification development for `bert_finetuner_splitset.py`.

The script fine-tunes a transformer text classifier on a labeled CSV
dataset.  We shallow-embed the pure decision logic of the script:

* the label list computed from the loaded dataframe (`train_label_list`,
  source line 82),
* the one-hot ground-truth vectorization (`_prepare_partition`,
  source lines 249-262),
* the arg-max reduction and accuracy count of the evaluator
  (`find_max_prob_cat` / `evaluate_multiclass`, source lines 265-295),
* the epoch/step training loop with patience-based early stopping
  (source lines 148-184),
* the top-10 checkpoint report (source lines 186-192),
* the Markdown intent-block export (`create_rasa_training_set` and its
  two verbatim duplicates, source lines 298-355).

Records are the `(label, article)` row tuples of the dataframe; model
predictions and accuracy values are rationals; Python dicts keyed by
label are association lists in key-insertion order (Python ≥ 3.7 dicts
preserve insertion order).
-/

namespace BertFinetuner

/-- A row of `data/articles.csv`: `(label, article)`, the tuple order
produced by `itertuples` on the dataframe with columns
`['label', 'article']`. -/
abbrev Record := String × String

/-- Embeds `pandas.Series.unique()`: the distinct values in first-occurrence
order. -/
def uniqueFirst : List String → List String
  | [] => []
  | a :: rest => a :: uniqueFirst (rest.filter (fun b => b ≠ a))
termination_by l => l.length
decreasing_by
  simp only [List.length_cons]
  exact Nat.lt_succ_of_le (List.length_filter_le _ _)

theorem uniqueFirst_cons (a : String) (l : List String) :
    uniqueFirst (a :: l) = a :: uniqueFirst (l.filter (fun b => b ≠ a)) := by
  rw [uniqueFirst]

theorem mem_uniqueFirst (x : String) :
    ∀ l : List String, x ∈ uniqueFirst l ↔ x ∈ l := by
  intro l
  induction l using uniqueFirst.induct with
  | case1 => simp [uniqueFirst]
  | case2 a rest ih =>
    rw [uniqueFirst]
    simp only [List.mem_cons, ih, List.mem_filter]
    constructor
    · rintro (h | ⟨h, _⟩)
      · exact Or.inl h
      · exact Or.inr h
    · rintro (h | h)
      · exact Or.inl h
      · by_cases hxa : x = a
        · exact Or.inl hxa
        · exact Or.inr ⟨h, by simpa using hxa⟩

theorem nodup_uniqueFirst : ∀ l : List String, (uniqueFirst l).Nodup := by
  intro l
  induction l using uniqueFirst.induct with
  | case1 => simp [uniqueFirst]
  | case2 a rest ih =>
    rw [uniqueFirst]
    refine List.nodup_cons.mpr ⟨?_, ih⟩
    rw [mem_uniqueFirst, List.mem_filter]
    rintro ⟨-, h⟩
    simp at h

/-- Source line 82: `train_label_list = df_train_set['label'].unique().tolist()`.
`df_train_set` is the full loaded dataframe, before the train/test split. -/
def train_label_list (rows : List Record) : List String :=
  uniqueFirst (rows.map Prod.fst)

/-- The dict comprehension of source line 260:
`{str(i): 1.0 if i == y else 0.0 for i in label_list}` (labels are
strings, so `str` is the identity).  A Python dict iterated in insertion
order is an association list; `label_list` has distinct entries, so each
key appears once. -/
def makeCat (label_list : List String) (y : String) : List (String × ℚ) :=
  label_list.map (fun i => (i, if i = y then (1 : ℚ) else 0))

/-- Source lines 249-262, with `preprocess=False` as called from
`load_data`: `labels, texts = zip(*text_label_tuples)` followed by
`cats = [{str(i): 1.0 if i == y else 0.0 for i in label_list} for y in labels]`,
returning `(texts, cats)`. -/
def _prepare_partition (text_label_tuples : List Record)
    (label_list : List String) :
    List String × List (List (String × ℚ)) :=
  (text_label_tuples.map Prod.snd,
   text_label_tuples.map (fun r => makeCat label_list r.1))

theorem makeCat_keys (ll : List String) (y : String) :
    (makeCat ll y).map Prod.fst = ll := by
  simp [makeCat, Function.comp_def]

theorem makeCat_length (ll : List String) (y : String) :
    (makeCat ll y).length = ll.length := by
  simp [makeCat]

theorem makeCat_entry (ll : List String) (y : String) :
    ∀ e ∈ makeCat ll y, e.2 = if e.1 = y then (1 : ℚ) else 0 := by
  intro e he
  simp only [makeCat, List.mem_map] at he
  obtain ⟨i, -, rfl⟩ := he
  rfl

theorem makeCat_sum_of_not_mem (ll : List String) (y : String)
    (hy : y ∉ ll) : ((makeCat ll y).map Prod.snd).sum = 0 := by
  induction ll with
  | nil => simp [makeCat]
  | cons a rest ih =>
    simp only [List.mem_cons, not_or] at hy
    have hne : a ≠ y := fun h => hy.1 h.symm
    simp [makeCat, hne, ih hy.2]  at *
    simpa [makeCat] using ih hy.2

theorem makeCat_sum (ll : List String) (y : String)
    (hnd : ll.Nodup) (hy : y ∈ ll) :
    ((makeCat ll y).map Prod.snd).sum = 1 := by
  induction ll with
  | nil => simp at hy
  | cons a rest ih =>
    rcases List.nodup_cons.mp hnd with ⟨ha, hrest⟩
    rcases List.mem_cons.mp hy with h | h
    · subst h
      have : ((makeCat rest y).map Prod.snd).sum = 0 :=
        makeCat_sum_of_not_mem rest y ha
      simp [makeCat] at this ⊢
      simpa using this
    · have hne : a ≠ y := fun hay => ha (hay ▸ h)
      have := ih hrest h
      simp [makeCat, hne] at this ⊢
      simpa using this

theorem makeCat_countOne_of_not_mem (ll : List String) (y : String)
    (hy : y ∉ ll) :
    (makeCat ll y).countP (fun e => e.2 == (1 : ℚ)) = 0 := by
  induction ll with
  | nil => simp [makeCat]
  | cons a rest ih =>
    simp only [List.mem_cons, not_or] at hy
    have hne : a ≠ y := fun h => hy.1 h.symm
    simp [makeCat, List.countP_cons, hne] at *
    simpa [makeCat] using ih hy.2

theorem makeCat_countOne (ll : List String) (y : String)
    (hnd : ll.Nodup) (hy : y ∈ ll) :
    (makeCat ll y).countP (fun e => e.2 == (1 : ℚ)) = 1 := by
  induction ll with
  | nil => simp at hy
  | cons a rest ih =>
    rcases List.nodup_cons.mp hnd with ⟨ha, hrest⟩
    rcases List.mem_cons.mp hy with h | h
    · subst h
      have h0 := makeCat_countOne_of_not_mem rest y ha
      simp [makeCat, List.countP_cons] at h0 ⊢
      simpa [makeCat] using h0
    · have hne : a ≠ y := fun hay => ha (hay ▸ h)
      have := ih hrest h
      simp [makeCat, List.countP_cons, hne] at this ⊢
      simpa [makeCat] using this

/-- Modelled from the spec: the stratified split itself is performed by
`sklearn.model_selection.train_test_split` (source lines 88-89), which is
not part of this repository.  Per the spec (§4.1), a successful split
partitions the rows and every label of the full dataset has enough
members to appear in each resulting partition; a label with too few
members makes the operation fail instead.  We model the successful
outcome: the two sides draw their rows from the full dataset, every row
lands on one side, and every label occurring in the full dataset occurs
on both sides. -/
def StratifiedSplit (full side1 side2 : List Record) : Prop :=
  (∀ r ∈ side1, r ∈ full) ∧ (∀ r ∈ side2, r ∈ full) ∧
  (∀ r ∈ full, r ∈ side1 ∨ r ∈ side2) ∧
  (∀ l ∈ full.map Prod.fst, l ∈ side1.map Prod.fst) ∧
  (∀ l ∈ full.map Prod.fst, l ∈ side2.map Prod.fst)

instance (full side1 side2 : List Record) :
    Decidable (StratifiedSplit full side1 side2) := by
  unfold StratifiedSplit; infer_instance

/-- Claim C1: the persisted label list (`data/labels.json`, source lines
112-114, which dumps `train_label_list`) — the same list that defines
the one-hot dimensionality — is, as a set, exactly the set of label
strings observed in the training partition.  `train_label_list` is
computed from the full dataframe before any training step runs; under
the stratified-split contract every full-dataset label also occurs in
the training partition, so the two sets coincide.  The list is moreover
duplicate-free. -/
theorem C1_labels_json_is_train_label_set
    (full train rest : List Record)
    (h : StratifiedSplit full train rest) :
    (train_label_list full).toFinset = (train.map Prod.fst).toFinset ∧
    (train_label_list full).Nodup := by
  obtain ⟨hsub, -, -, hcov, -⟩ := h
  refine ⟨?_, nodup_uniqueFirst _⟩
  ext x
  simp only [List.mem_toFinset, train_label_list, mem_uniqueFirst]
  constructor
  · exact fun hx => hcov x hx
  · intro hx
    obtain ⟨r, hr, rfl⟩ := List.mem_map.mp hx
    exact List.mem_map_of_mem Prod.fst (hsub r hr)

/-- Witness for C1 at a concrete dataset and split. -/
theorem C1_labels_json_is_train_label_set_witness :
    StratifiedSplit [("a", "x"), ("b", "y"), ("a", "z"), ("b", "w")]
      [("a", "x"), ("b", "y")] [("a", "z"), ("b", "w")] ∧
    (train_label_list
        [("a", "x"), ("b", "y"), ("a", "z"), ("b", "w")]).toFinset =
      ([("a", "x"), ("b", "y")].map Prod.fst).toFinset ∧
    (train_label_list [("a", "x"), ("b", "y"), ("a", "z"), ("b", "w")]).Nodup :=
  ⟨by decide,
   (C1_labels_json_is_train_label_set
      [("a", "x"), ("b", "y"), ("a", "z"), ("b", "w")]
      [("a", "x"), ("b", "y")] [("a", "z"), ("b", "w")] (by decide)).1,
   (C1_labels_json_is_train_label_set
      [("a", "x"), ("b", "y"), ("a", "z"), ("b", "w")]
      [("a", "x"), ("b", "y")] [("a", "z"), ("b", "w")] (by decide)).2⟩

/-- Claim C4: for a record whose label `y` belongs to the frozen label
list `ll` of `k` distinct labels, the ground-truth distribution built by
`_prepare_partition` for that record is `makeCat ll y`, a dense mapping
whose keys are exactly the `k` labels of `ll` (all present, even at 0),
valued 1 at `y` and 0 at every other label, summing to 1 and carrying
exactly one entry equal to 1. -/
theorem C4_ground_truth_is_one_hot
    (ll : List String) (y : String) (rows : List Record)
    (hnd : ll.Nodup) (hy : y ∈ ll) :
    (_prepare_partition rows ll).2 = rows.map (fun r => makeCat ll r.1) ∧
    (makeCat ll y).map Prod.fst = ll ∧
    (makeCat ll y).length = ll.length ∧
    (∀ e ∈ makeCat ll y, e.2 = if e.1 = y then (1 : ℚ) else 0) ∧
    ((makeCat ll y).map Prod.snd).sum = 1 ∧
    (makeCat ll y).countP (fun e => e.2 == (1 : ℚ)) = 1 :=
  ⟨rfl, makeCat_keys ll y, makeCat_length ll y, makeCat_entry ll y,
   makeCat_sum ll y hnd hy, makeCat_countOne ll y hnd hy⟩

/-- Witness for C4 at a concrete label list and record label. -/
theorem C4_ground_truth_is_one_hot_witness :
    (["a", "b", "c"] : List String).Nodup ∧ "b" ∈ ["a", "b", "c"] ∧
    ((makeCat ["a", "b", "c"] "b").map Prod.snd).sum = 1 ∧
    (makeCat ["a", "b", "c"] "b").countP (fun e => e.2 == (1 : ℚ)) = 1 :=
  ⟨by decide, by decide,
   (C4_ground_truth_is_one_hot ["a", "b", "c"] "b" [] (by decide)
      (by decide)).2.2.2.2.1,
   (C4_ground_truth_is_one_hot ["a", "b", "c"] "b" [] (by decide)
      (by decide)).2.2.2.2.2⟩

/-- Claim C10: the label list is computed from the full dataset before
splitting, so every record of any partition drawn from the full dataset
has its label in that list; hence every ground-truth distribution built
by `_prepare_partition` for such a partition has exactly one entry equal
to 1, sums to 1, and is never the all-zero (unknown-label)
distribution. -/
theorem C10_unknown_label_unreachable
    (full part : List Record)
    (hsub : ∀ r ∈ part, r ∈ full) :
    ∀ cat ∈ (_prepare_partition part (train_label_list full)).2,
      cat.countP (fun e => e.2 == (1 : ℚ)) = 1 ∧
      (cat.map Prod.snd).sum = 1 ∧
      ¬(∀ e ∈ cat, e.2 = (0 : ℚ)) := by
  intro cat hcat
  simp only [_prepare_partition, List.mem_map] at hcat
  obtain ⟨r, hr, rfl⟩ := hcat
  have hy : r.1 ∈ train_label_list full := by
    rw [train_label_list, mem_uniqueFirst]
    exact List.mem_map_of_mem Prod.fst (hsub r hr)
  have hnd : (train_label_list full).Nodup := nodup_uniqueFirst _
  refine ⟨makeCat_countOne _ _ hnd hy, makeCat_sum _ _ hnd hy, ?_⟩
  intro hzero
  have hpos : 0 < (makeCat (train_label_list full) r.1).countP
      (fun e => e.2 == (1 : ℚ)) := by
    rw [makeCat_countOne _ _ hnd hy]
    exact Nat.zero_lt_one
  obtain ⟨e, he, hone⟩ := List.countP_pos_iff.mp hpos
  have : e.2 = (1 : ℚ) := by simpa using hone
  rw [hzero e he] at this
  exact zero_ne_one this

/-- Witness for C10 at a concrete dataset and partition. -/
theorem C10_unknown_label_unreachable_witness :
    (∀ r ∈ ([("a", "z")] : List Record), r ∈ [("a", "x"), ("b", "y"), ("a", "z")]) ∧
    ∀ cat ∈ (_prepare_partition [("a", "z")]
        (train_label_list [("a", "x"), ("b", "y"), ("a", "z")])).2,
      cat.countP (fun e => e.2 == (1 : ℚ)) = 1 ∧
      (cat.map Prod.snd).sum = 1 ∧
      ¬(∀ e ∈ cat, e.2 = (0 : ℚ)) :=
  ⟨by decide,
   C10_unknown_label_unreachable [("a", "x"), ("b", "y"), ("a", "z")]
     [("a", "z")] (by decide)⟩

/-- A recorded evaluation result, the tuple
`(scores["textcat_acc"], step, epoch)` appended at source line 168. -/
abbrev Checkpoint := ℚ × ℕ × ℕ

/-- Source line 152: `eval_every = 100`. -/
def eval_every : ℕ := 100

/-- Source line 153: `patience = 3`. -/
def patience : ℕ := 3

/-- Python's `<` on `(score, step, epoch)` tuples: lexicographic. -/
def ckLt (a b : Checkpoint) : Prop :=
  a.1 < b.1 ∨ (a.1 = b.1 ∧
    (a.2.1 < b.2.1 ∨ (a.2.1 = b.2.1 ∧ a.2.2 < b.2.2)))

instance : DecidableRel ckLt := fun a b => by
  unfold ckLt; infer_instance

/-- Python's builtin `max(iterable)`: start from the first element and
replace the running maximum whenever a strictly greater element
appears. -/
def pyMax (cur : Checkpoint) : List Checkpoint → Checkpoint
  | [] => cur
  | y :: rest => pyMax (if ckLt cur y then y else cur) rest

/-- Embeds `max(results)` at source line 182, guarded by `if results:` at
line 181. -/
def bestCheckpoint : List Checkpoint → Option Checkpoint
  | [] => none
  | x :: rest => some (pyMax x rest)

/-- The mutable state of the training loop of source lines 149-184:
the `results` list, the global `step` counter and the `epoch`
counter. -/
structure LoopState where
  results : List Checkpoint
  step : ℕ
  epoch : ℕ
deriving DecidableEq, Repr

/-- One batch iteration of the inner `for batch in batches` loop
(source lines 159-178): the checkpoint accuracy stream `acc` abstracts
the delegated `nlp.update`/`evaluate_multiclass` calls; a
`CheckpointResult` is appended when `step and (step % eval_every) == 0`
(line 164), after which `step += 1` (line 178). -/
def runBatch (acc : ℕ → ℚ) (s : LoopState) : LoopState :=
  let results :=
    if s.step ≠ 0 ∧ s.step % eval_every = 0 then
      s.results ++ [(acc s.step, s.step, s.epoch)]
    else s.results
  ⟨results, s.step + 1, s.epoch⟩

/-- Runs `nBatches` consecutive batch iterations. -/
def runBatches (acc : ℕ → ℚ) : ℕ → LoopState → LoopState
  | 0, s => s
  | n + 1, s => runBatches acc n (runBatch acc s)

/-- One iteration of the outer `while True` loop: process every batch
of the epoch, then `epoch += 1` (line 179).  `nBatches` is the batch
count of one epoch (`minibatch(train_data, size=batch_size)`). -/
def runEpoch (acc : ℕ → ℚ) (nBatches : ℕ) (s : LoopState) : LoopState :=
  let s' := runBatches acc nBatches s
  ⟨s'.results, s'.step, s'.epoch + 1⟩

/-- The early-stop test of source lines 181-183, evaluated once per
epoch after the epoch increment:
`best_score, best_step, best_epoch = max(results)` and stop when
`((step - best_step) // eval_every) >= patience`.  Python `//` is floor
division, `Int.fdiv` here. -/
def shouldStop (s : LoopState) : Bool :=
  match bestCheckpoint s.results with
  | none => false
  | some b => (patience : ℤ) ≤ ((s.step : ℤ) - (b.2.1 : ℤ)).fdiv (eval_every : ℤ)

/-- The `while True` training loop (source line 154), fuel-bounded:
runs an epoch, then checks the stop condition; returns the final state
at the break, or `none` if `fuel` epochs did not reach the stop. -/
def trainLoop (acc : ℕ → ℚ) (nBatches : ℕ) : ℕ → LoopState → Option LoopState
  | 0, _ => none
  | fuel + 1, s =>
    let s' := runEpoch acc nBatches s
    if shouldStop s' then some s' else trainLoop acc nBatches fuel s'

/-- The synthetic accuracy stream of the early-stop scenario: rises,
peaks at step 300, then stays flat at a lower value. -/
def accPeak300 (step : ℕ) : ℚ :=
  if step = 300 then mkRat 9 10 else if step < 300 then mkRat 3 10 else mkRat 1 2

set_option maxRecDepth 8000 in
/-- Claim C2: with `eval_every = 100` and `patience = 3`, on a
checkpoint stream peaking at step 300 and flat afterwards (epochs of
100 batches, so checkpoints land on every multiple of 100), the loop
stops exactly at step `300 + 3 * 100 = 600`: the recorded checkpoints
are the ones at steps 100-500, the best is the one at step 300, the
boundary is inclusive (`(600 - 300) // 100 = 3 ≥ patience` triggers the
stop, while `(500 - 300) // 100 = 2` at the previous per-epoch check
does not). -/
theorem C2_early_stop_at_600 :
    (trainLoop accPeak300 100 20 ⟨[], 0, 0⟩).map LoopState.step = some 600 ∧
    (trainLoop accPeak300 100 20 ⟨[], 0, 0⟩).map
        (fun s => s.results.map (fun c => c.2.1)) =
      some [100, 200, 300, 400, 500] ∧
    (trainLoop accPeak300 100 20 ⟨[], 0, 0⟩).bind
        (fun s => (bestCheckpoint s.results).map (fun b => b.2.1)) =
      some 300 ∧
    ((600 : ℤ) - 300).fdiv (eval_every : ℤ) = (patience : ℤ) ∧
    ¬((patience : ℤ) ≤ ((500 : ℤ) - 300).fdiv (eval_every : ℤ)) := by
  refine ⟨by decide, by decide, by decide, by decide, by decide⟩

/-- Claim C3 fails on the code: `max(results)` compares the
`(score, step, epoch)` tuples lexicographically, so of two checkpoints
with equal accuracy at steps 100 and 200 it selects the one at step
200, not the earlier-recorded one at step 100. -/
theorem C3_counterexample_latest_tie_wins :
    (bestCheckpoint [(mkRat 1 2, 100, 0), (mkRat 1 2, 200, 0)]).map
        (fun b => b.2.1) = some 200 ∧ (200 : ℕ) ≠ 100 := by
  refine ⟨by decide, by decide⟩

theorem ckLt_irrefl (a : Checkpoint) : ¬ckLt a a := by
  rintro (h | ⟨-, h | ⟨-, h⟩⟩) <;> exact lt_irrefl _ h

theorem ckLt_trans {a b c : Checkpoint} (h1 : ckLt a b) (h2 : ckLt b c) :
    ckLt a c := by
  obtain ⟨a1, a2, a3⟩ := a
  obtain ⟨b1, b2, b3⟩ := b
  obtain ⟨c1, c2, c3⟩ := c
  simp only [ckLt] at h1 h2 ⊢
  rcases h1 with h1 | ⟨rfl, h1⟩ <;> rcases h2 with h2 | ⟨rfl, h2⟩
  · exact Or.inl (h1.trans h2)
  · exact Or.inl h1
  · exact Or.inl h2
  · refine Or.inr ⟨rfl, ?_⟩
    rcases h1 with h1 | ⟨rfl, h1⟩ <;> rcases h2 with h2 | ⟨rfl, h2⟩
    · exact Or.inl (h1.trans h2)
    · exact Or.inl h1
    · exact Or.inl h2
    · exact Or.inr ⟨rfl, h1.trans h2⟩

theorem ckLt_trichotomy (a b : Checkpoint) : ckLt a b ∨ a = b ∨ ckLt b a := by
  obtain ⟨a1, a2, a3⟩ := a
  obtain ⟨b1, b2, b3⟩ := b
  rcases lt_trichotomy a1 b1 with h | h | h
  · exact Or.inl (Or.inl h)
  · subst h
    rcases lt_trichotomy a2 b2 with h2 | h2 | h2
    · exact Or.inl (Or.inr ⟨rfl, Or.inl h2⟩)
    · subst h2
      rcases lt_trichotomy a3 b3 with h3 | h3 | h3
      · exact Or.inl (Or.inr ⟨rfl, Or.inr ⟨rfl, h3⟩⟩)
      · subst h3
        exact Or.inr (Or.inl rfl)
      · exact Or.inr (Or.inr (Or.inr ⟨rfl, Or.inr ⟨rfl, h3⟩⟩))
    · exact Or.inr (Or.inr (Or.inr ⟨rfl, Or.inl h2⟩))
  · exact Or.inr (Or.inr (Or.inl h))

theorem pyMax_spec : ∀ (l : List Checkpoint) (x : Checkpoint),
    pyMax x l ∈ x :: l ∧ ∀ y ∈ x :: l, ¬ckLt (pyMax x l) y := by
  intro l
  induction l with
  | nil =>
    intro x
    refine ⟨List.mem_singleton_self x, ?_⟩
    intro y hy
    rw [List.mem_singleton] at hy
    subst hy
    exact ckLt_irrefl y
  | cons y rest ih =>
    intro x
    rw [pyMax]
    by_cases hxy : ckLt x y
    · rw [if_pos hxy]
      obtain ⟨hmem, hnlt⟩ := ih y
      refine ⟨?_, ?_⟩
      · rcases List.mem_cons.mp hmem with h | h
        · rw [h]
          exact List.mem_cons_of_mem x (List.mem_cons_self y rest)
        · exact List.mem_cons_of_mem x (List.mem_cons_of_mem y h)
      · intro z hz
        rcases List.mem_cons.mp hz with h | hz'
        · subst h
          intro hlt
          exact hnlt y (List.mem_cons_self y rest) (ckLt_trans hlt hxy)
        · exact hnlt z hz'
    · rw [if_neg hxy]
      obtain ⟨hmem, hnlt⟩ := ih x
      refine ⟨?_, ?_⟩
      · rcases List.mem_cons.mp hmem with h | h
        · rw [h]
          exact List.mem_cons_self x _
        · exact List.mem_cons_of_mem x (List.mem_cons_of_mem y h)
      · intro z hz
        rcases List.mem_cons.mp hz with h | hz'
        · subst h
          exact hnlt z (List.mem_cons_self z rest)
        · rcases List.mem_cons.mp hz' with h | hz''
          · subst h
            intro hlt
            rcases ckLt_trichotomy x z with h | h | h
            · exact hxy h
            · subst h
              exact hnlt x (List.mem_cons_self x rest) hlt
            · exact hnlt x (List.mem_cons_self x rest) (ckLt_trans hlt h)
          · exact hnlt z (List.mem_cons_of_mem x hz'')

/-- Claim C3, amended: the "best" pointer computed by `max(results)` is
the lexicographic maximum of the recorded `(accuracy, step, epoch)`
tuples.  It is a recorded checkpoint, no recorded checkpoint is
lexicographically above it, its accuracy is maximal — and when two
recorded checkpoints have equal accuracy, the one with the larger step
(the later-recorded one) is selected, not the first-occurring one. -/
theorem C3_best_is_lex_max_latest_tie_wins
    (r : List Checkpoint) (x : Checkpoint)
    (h : bestCheckpoint r = some x) :
    x ∈ r ∧ (∀ y ∈ r, ¬ckLt x y) ∧ (∀ y ∈ r, y.1 ≤ x.1) ∧
    ∀ y ∈ r, y.1 = x.1 → y.2.1 ≤ x.2.1 := by
  cases r with
  | nil => simp [bestCheckpoint] at h
  | cons a rest =>
    rw [bestCheckpoint, Option.some.injEq] at h
    subst h
    obtain ⟨hmem, hnlt⟩ := pyMax_spec rest a
    refine ⟨hmem, hnlt, ?_, ?_⟩
    · intro y hy
      by_contra hgt
      exact hnlt y hy (Or.inl (lt_of_not_le hgt))
    · intro y hy heq
      by_contra hgt
      exact hnlt y hy (Or.inr ⟨heq.symm, Or.inl (lt_of_not_le hgt)⟩)

/-- Witness for the amended C3 at a concrete results list with an
accuracy tie between steps 100 and 200. -/
theorem C3_best_is_lex_max_latest_tie_wins_witness :
    bestCheckpoint [(mkRat 1 2, 100, 0), (mkRat 1 2, 200, 1)] =
      some (mkRat 1 2, 200, 1) ∧
    (mkRat 1 2, 200, (1 : ℕ)) ∈
      ([(mkRat 1 2, 100, 0), (mkRat 1 2, 200, 1)] : List Checkpoint) ∧
    ∀ y ∈ ([(mkRat 1 2, 100, 0), (mkRat 1 2, 200, 1)] : List Checkpoint),
      y.1 = mkRat 1 2 → y.2.1 ≤ 200 :=
  ⟨by decide,
   (C3_best_is_lex_max_latest_tie_wins
      [(mkRat 1 2, 100, 0), (mkRat 1 2, 200, 1)]
      (mkRat 1 2, 200, 1) (by decide)).1,
   (C3_best_is_lex_max_latest_tie_wins
      [(mkRat 1 2, 100, 0), (mkRat 1 2, 200, 1)]
      (mkRat 1 2, 200, 1) (by decide)).2.2.2⟩

/-- The non-strict "greater or equal" companion of `ckLt`: Python's
`sorted(…, reverse=True)` orders by it. -/
def ckGe (a b : Checkpoint) : Prop := ¬ckLt a b

instance : DecidableRel ckGe := fun a b => by
  unfold ckGe; infer_instance

instance : IsTotal Checkpoint ckGe :=
  ⟨fun a b => by
    rcases ckLt_trichotomy a b with h | h | h
    · exact Or.inr fun h' => ckLt_irrefl b (ckLt_trans h' h)
    · exact Or.inl fun h' => ckLt_irrefl b (h ▸ h')
    · exact Or.inl fun h' => ckLt_irrefl a (ckLt_trans h' h)⟩

instance : IsTrans Checkpoint ckGe :=
  ⟨fun a b c hab hbc hac => by
    rcases ckLt_trichotomy a b with h | h | h
    · exact hab h
    · exact hbc (h ▸ hac)
    · exact hbc (ckLt_trans h hac)⟩

/-- Source line 191: `sorted(results, reverse=True)[:10]` — the
checkpoints ordered descending by their tuples, truncated to ten. -/
def topTenReport (results : List Checkpoint) : List Checkpoint :=
  (List.insertionSort ckGe results).take 10

theorem ckGe_and_ne_fst {a b : Checkpoint} (hge : ckGe a b)
    (hne : a.1 ≠ b.1) : b.1 < a.1 := by
  rcases lt_trichotomy b.1 a.1 with h | h | h
  · exact h
  · exact absurd h.symm hne
  · exact absurd (Or.inl h) hge

/-- Claim C8: on 15 recorded checkpoints with pairwise distinct
accuracies, the report is exactly the 10 highest-accuracy checkpoints,
in strictly descending accuracy order: it has length 10, its members
are recorded checkpoints, its accuracies strictly decrease along the
table, and every recorded checkpoint left out of the table has strictly
lower accuracy than every printed one. -/
theorem C8_top_ten_descending (results : List Checkpoint)
    (hlen : results.length = 15)
    (hdist : (results.map Prod.fst).Nodup) :
    (topTenReport results).length = 10 ∧
    (∀ x ∈ topTenReport results, x ∈ results) ∧
    (topTenReport results).Pairwise (fun a b => b.1 < a.1) ∧
    ∀ x ∈ topTenReport results, ∀ y ∈ results,
      y ∉ topTenReport results → y.1 < x.1 := by
  have hperm : List.Perm (List.insertionSort ckGe results) results :=
    List.perm_insertionSort ckGe results
  have hsorted : (List.insertionSort ckGe results).Pairwise ckGe :=
    List.sorted_insertionSort ckGe results
  have hslen : (List.insertionSort ckGe results).length = 15 :=
    hperm.length_eq.trans hlen
  have hsnodup : ((List.insertionSort ckGe results).map Prod.fst).Nodup :=
    (hperm.map Prod.fst).nodup_iff.mpr hdist
  refine ⟨?_, ?_, ?_, ?_⟩
  · rw [topTenReport, List.length_take, hslen]
    decide
  · intro x hx
    exact hperm.mem_iff.mp (List.take_subset 10 _ hx)
  · have hpw : (topTenReport results).Pairwise ckGe :=
      hsorted.sublist (List.take_sublist 10 _)
    have hnd : ((topTenReport results).map Prod.fst).Nodup := by
      rw [topTenReport]
      exact hsnodup.sublist ((List.take_sublist 10 _).map Prod.fst)
    have hne : (topTenReport results).Pairwise (fun a b => a.1 ≠ b.1) :=
      (List.pairwise_map.mp hnd)
    exact (hpw.and hne).imp fun h => ckGe_and_ne_fst h.1 h.2
  · intro x hx y hy hyout
    have hx' : x ∈ (List.insertionSort ckGe results).take 10 := hx
    have hysort : y ∈ List.insertionSort ckGe results := hperm.mem_iff.mpr hy
    rw [← List.take_append_drop 10 (List.insertionSort ckGe results),
      List.mem_append] at hysort
    have hydrop : y ∈ (List.insertionSort ckGe results).drop 10 := by
      rcases hysort with h | h
      · exact absurd h hyout
      · exact h
    have hge : ckGe x y := by
      have hp := hsorted
      rw [← List.take_append_drop 10 (List.insertionSort ckGe results),
        List.pairwise_append] at hp
      exact hp.2.2 x hx' y hydrop
    have hne : x.1 ≠ y.1 := by
      have hn := hsnodup
      rw [← List.take_append_drop 10 (List.insertionSort ckGe results),
        List.map_append, List.nodup_append] at hn
      exact fun h =>
        hn.2.2 (List.mem_map_of_mem Prod.fst hx')
          (h.symm ▸ List.mem_map_of_mem Prod.fst hydrop)
    exact ckGe_and_ne_fst hge hne

/-- Fifteen concrete checkpoints with pairwise distinct accuracies. -/
def fifteenResults : List Checkpoint :=
  (List.range 15).map (fun (i : ℕ) => ((i : ℚ), 100 * i, i))

/-- Witness for C8 at 15 concrete checkpoints with distinct
accuracies. -/
theorem C8_top_ten_descending_witness :
    fifteenResults.length = 15 ∧
    (fifteenResults.map Prod.fst).Nodup ∧
    (topTenReport fifteenResults).length = 10 :=
  ⟨by decide, by decide,
   (C8_top_ten_descending fifteenResults (by decide) (by decide)).1⟩

/-- The pure decision pipeline of `main` as a function of the
`--n_iter` CLI option (source lines 34-41 bind it; nothing after the
binding reads it): the persisted label list, the training-loop outcome
and the top-10 report.  `rows` is the loaded dataframe, `acc` the
checkpoint accuracy stream, `nBatches` the per-epoch batch count and
`fuel` an epoch bound. -/
def mainSim (n_iter : ℕ) (rows : List Record) (acc : ℕ → ℚ)
    (nBatches fuel : ℕ) :
    List String × Option LoopState × List Checkpoint :=
  let labels := train_label_list rows
  let final := trainLoop acc nBatches fuel ⟨[], 0, 0⟩
  (labels, final,
   match final with
   | none => []
   | some s => topTenReport s.results)

/-- Claim C6: the program's decision logic is invariant in `--n_iter`:
for any two values of the option, with every other input held equal,
the label list, the loop's termination behaviour and the final report
coincide — termination is driven solely by the patience condition and
never consults `n_iter`. -/
theorem C6_n_iter_never_consulted
    (n1 n2 : ℕ) (rows : List Record) (acc : ℕ → ℚ) (nBatches fuel : ℕ) :
    mainSim n1 rows acc nBatches fuel = mainSim n2 rows acc nBatches fuel :=
  rfl

/-- One iteration of the grouping loop of source lines 306-311: append
the row's article to its label's bucket in the insertion-ordered
`label_samples` dict, creating the bucket if the label is new (both
branches of the source `if` append; the `if` branch additionally
creates the empty list first). -/
def addSample : List (String × List String) → String → String →
    List (String × List String)
  | [], l, a => [(l, [a])]
  | (k, articles) :: rest, l, a =>
    if k = l then (k, articles ++ [a]) :: rest
    else (k, articles) :: addSample rest l a

/-- The `for index, entry in df.iterrows()` accumulation of source
lines 306-311, over the rows in dataframe order. -/
def buildSamples (acc : List (String × List String)) :
    List Record → List (String × List String)
  | [] => acc
  | r :: rest => buildSamples (addSample acc r.1 r.2) rest

/-- The `label_samples` dict after the grouping loop, as an
insertion-ordered association list. -/
def label_samples (rows : List Record) : List (String × List String) :=
  buildSamples [] rows

/-- Source lines 298-315, `create_rasa_training_set`: writes
`data/train.md`; for each grouped label one `## intent:<label>` header
line followed by one `- <article>` line per bucketed article. -/
def create_rasa_training_set (df_train_set : List Record) :
    String × List String :=
  ("data/train.md",
   (buildSamples [] df_train_set).flatMap
     (fun g => ("## intent:" ++ g.1) :: g.2.map (fun a => "- " ++ a)))

/-- First-match association lookup: the value Python reads and writes
for key `l` in the insertion-ordered dict. -/
def samplesAt : List (String × List String) → String → List String
  | [], _ => []
  | (k, articles) :: rest, l => if k = l then articles else samplesAt rest l

theorem keys_addSample_mem (acc : List (String × List String))
    (l a : String) (h : l ∈ acc.map Prod.fst) :
    (addSample acc l a).map Prod.fst = acc.map Prod.fst := by
  induction acc with
  | nil => simp at h
  | cons g rest ih =>
    obtain ⟨k, articles⟩ := g
    rw [addSample]
    by_cases hk : k = l
    · rw [if_pos hk]
      simp
    · rw [if_neg hk]
      simp only [List.map_cons] at h ⊢
      rcases List.mem_cons.mp h with h' | h'
      · exact absurd h'.symm hk
      · rw [ih h']

theorem keys_addSample_not_mem (acc : List (String × List String))
    (l a : String) (h : l ∉ acc.map Prod.fst) :
    (addSample acc l a).map Prod.fst = acc.map Prod.fst ++ [l] := by
  induction acc with
  | nil => simp [addSample]
  | cons g rest ih =>
    obtain ⟨k, articles⟩ := g
    simp only [List.map_cons, List.mem_cons, not_or] at h
    rw [addSample, if_neg (fun hk => h.1 hk.symm)]
    simp only [List.map_cons, List.cons_append, List.cons.injEq, true_and]
    exact ih h.2

theorem samplesAt_addSample (acc : List (String × List String))
    (l a l' : String) :
    samplesAt (addSample acc l a) l' =
      samplesAt acc l' ++ if l = l' then [a] else [] := by
  induction acc with
  | nil =>
    by_cases h : l = l' <;> simp [addSample, samplesAt, h]
  | cons g rest ih =>
    obtain ⟨k, articles⟩ := g
    rw [addSample]
    by_cases hk : k = l
    · rw [if_pos hk, samplesAt, samplesAt]
      by_cases h' : k = l'
      · rw [if_pos h', if_pos h', if_pos (hk ▸ h')]
      · rw [if_neg h', if_neg h', if_neg (hk ▸ h'), List.append_nil]
    · rw [if_neg hk, samplesAt, samplesAt]
      by_cases h' : k = l'
      · rw [if_pos h', if_pos h']
        have : ¬l = l' := fun h => hk (h' ▸ h.symm ▸ rfl)
        rw [if_neg this, List.append_nil]
      · rw [if_neg h', if_neg h', ih]

theorem keys_buildSamples :
    ∀ (rows : List Record) (acc : List (String × List String)),
    (buildSamples acc rows).map Prod.fst =
      acc.map Prod.fst ++
        uniqueFirst ((rows.map Prod.fst).filter
          (fun l => decide (l ∉ acc.map Prod.fst))) := by
  intro rows
  induction rows with
  | nil =>
    intro acc
    simp [buildSamples, uniqueFirst]
  | cons r rest ih =>
    intro acc
    rw [buildSamples]
    by_cases hmem : r.1 ∈ acc.map Prod.fst
    · rw [ih, keys_addSample_mem acc r.1 r.2 hmem]
      simp only [List.map_cons, List.filter_cons]
      simp [hmem]
    · rw [ih, keys_addSample_not_mem acc r.1 r.2 hmem]
      simp only [List.map_cons, List.filter_cons]
      rw [show decide (r.1 ∉ acc.map Prod.fst) = true by simp [hmem]]
      rw [if_pos rfl, uniqueFirst_cons, List.append_assoc]
      simp only [List.singleton_append]
      rw [List.filter_filter]
      have hpred : ∀ b : String,
          (decide ¬b = r.1 && decide (b ∉ acc.map Prod.fst)) =
            decide (b ∉ acc.map Prod.fst ++ [r.1]) := by
        intro b
        by_cases h1 : b = r.1 <;> by_cases h2 : b ∈ acc.map Prod.fst <;>
          simp [h1, h2, List.mem_append]
      have : List.filter (fun b => decide ¬b = r.1 && decide
          (b ∉ acc.map Prod.fst)) (rest.map Prod.fst) =
          List.filter (fun b => decide (b ∉ acc.map Prod.fst ++ [r.1]))
            (rest.map Prod.fst) :=
        List.filter_congr (fun b _ => hpred b)
      rw [this]

theorem samplesAt_buildSamples :
    ∀ (rows : List Record) (acc : List (String × List String)) (l : String),
    samplesAt (buildSamples acc rows) l =
      samplesAt acc l ++
        (rows.filter (fun r => decide (r.1 = l))).map Prod.snd := by
  intro rows
  induction rows with
  | nil =>
    intro acc l
    simp [buildSamples]
  | cons r rest ih =>
    intro acc l
    rw [buildSamples, ih, samplesAt_addSample, List.filter_cons]
    by_cases h : r.1 = l
    · simp [h, List.append_assoc]
    · simp [h]

theorem nodup_keys_buildSamples :
    ∀ (rows : List Record) (acc : List (String × List String)),
    ((acc.map Prod.fst).Nodup) → ((buildSamples acc rows).map Prod.fst).Nodup := by
  intro rows
  induction rows with
  | nil =>
    intro acc h
    exact h
  | cons r rest ih =>
    intro acc h
    rw [buildSamples]
    apply ih
    by_cases hmem : r.1 ∈ acc.map Prod.fst
    · rw [keys_addSample_mem acc r.1 r.2 hmem]
      exact h
    · rw [keys_addSample_not_mem acc r.1 r.2 hmem]
      simp [List.nodup_append, h, hmem]

theorem assoc_eq_map_keys :
    ∀ acc : List (String × List String), (acc.map Prod.fst).Nodup →
    acc = (acc.map Prod.fst).map (fun l => (l, samplesAt acc l)) := by
  intro acc
  induction acc with
  | nil => simp
  | cons g rest ih =>
    obtain ⟨k, articles⟩ := g
    intro hnd
    simp only [List.map_cons] at hnd
    obtain ⟨hk, hrest⟩ := List.nodup_cons.mp hnd
    simp only [List.map_cons]
    rw [samplesAt, if_pos rfl]
    congr 1
    have hsame : ∀ l ∈ rest.map Prod.fst,
        samplesAt ((k, articles) :: rest) l = samplesAt rest l := by
      intro l hl
      rw [samplesAt, if_neg (fun h => hk (by rw [h]; exact hl))]
    calc rest = (rest.map Prod.fst).map (fun l => (l, samplesAt rest l)) :=
        ih hrest
      _ = (rest.map Prod.fst).map
            (fun l => (l, samplesAt ((k, articles) :: rest) l)) := by
          apply List.map_congr_left
          intro a ha
          rw [hsame a ha]

theorem label_samples_spec (rows : List Record) :
    label_samples rows = (uniqueFirst (rows.map Prod.fst)).map
      (fun l => (l, (rows.filter (fun r => decide (r.1 = l))).map Prod.snd)) := by
  have hkeys : (label_samples rows).map Prod.fst =
      uniqueFirst (rows.map Prod.fst) := by
    rw [label_samples, keys_buildSamples]
    simp
  have hnd : ((label_samples rows).map Prod.fst).Nodup := by
    rw [hkeys]
    exact nodup_uniqueFirst _
  have hval : ∀ l, samplesAt (label_samples rows) l =
      (rows.filter (fun r => decide (r.1 = l))).map Prod.snd := by
    intro l
    rw [label_samples, samplesAt_buildSamples]
    rw [samplesAt, List.nil_append]
  calc label_samples rows
      = ((label_samples rows).map Prod.fst).map
          (fun l => (l, samplesAt (label_samples rows) l)) :=
        assoc_eq_map_keys _ hnd
    _ = (uniqueFirst (rows.map Prod.fst)).map
          (fun l => (l, (rows.filter (fun r => decide (r.1 = l))).map
            Prod.snd)) := by
        rw [hkeys]
        apply List.map_congr_left
        intro a _
        rw [hval a]

/-- Claim C7: the Markdown export emits one `## intent:<label>` header
per distinct label, headers in first-encountered label order, each
followed by one `- <text>` bullet per record carrying that label in
encounter order; in particular the records
`[("a","x"),("b","y"),("a","z")]` produce `## intent:a` with bullets
`x` then `z`, followed by `## intent:b` with bullet `y`. -/
theorem C7_markdown_grouping :
    (∀ rows : List Record,
      (create_rasa_training_set rows).2 =
        (uniqueFirst (rows.map Prod.fst)).flatMap
          (fun l => ("## intent:" ++ l) ::
            ((rows.filter (fun r => decide (r.1 = l))).map Prod.snd).map
              (fun a => "- " ++ a))) ∧
    (create_rasa_training_set [("a", "x"), ("b", "y"), ("a", "z")]).2 =
      ["## intent:a", "- x", "- z", "## intent:b", "- y"] := by
  constructor
  · intro rows
    show (label_samples rows).flatMap
        (fun g => ("## intent:" ++ g.1) :: g.2.map (fun a => "- " ++ a)) = _
    rw [label_samples_spec, List.flatMap_map]
  · rfl

/-- Source lines 318-335, `create_rasa_dev_set`: a verbatim duplicate
of the training export writing `data/dev.md`; transcribed with its own
copies of the grouping loop, mirroring the duplication. -/
def addSampleDev : List (String × List String) → String → String →
    List (String × List String)
  | [], l, a => [(l, [a])]
  | (k, articles) :: rest, l, a =>
    if k = l then (k, articles ++ [a]) :: rest
    else (k, articles) :: addSampleDev rest l a

/-- The per-row accumulation loop of `create_rasa_dev_set`. -/
def buildSamplesDev (acc : List (String × List String)) :
    List Record → List (String × List String)
  | [] => acc
  | r :: rest => buildSamplesDev (addSampleDev acc r.1 r.2) rest

/-- Source lines 318-335: `create_rasa_dev_set`. -/
def create_rasa_dev_set (df_dev_set : List Record) :
    String × List String :=
  ("data/dev.md",
   (buildSamplesDev [] df_dev_set).flatMap
     (fun g => ("## intent:" ++ g.1) :: g.2.map (fun a => "- " ++ a)))

/-- Source lines 338-355, `create_rasa_test_set`: the second verbatim
duplicate, writing `data/test.md`. -/
def addSampleTest : List (String × List String) → String → String →
    List (String × List String)
  | [], l, a => [(l, [a])]
  | (k, articles) :: rest, l, a =>
    if k = l then (k, articles ++ [a]) :: rest
    else (k, articles) :: addSampleTest rest l a

/-- The per-row accumulation loop of `create_rasa_test_set`. -/
def buildSamplesTest (acc : List (String × List String)) :
    List Record → List (String × List String)
  | [] => acc
  | r :: rest => buildSamplesTest (addSampleTest acc r.1 r.2) rest

/-- Source lines 338-355: `create_rasa_test_set`. -/
def create_rasa_test_set (df_test_set : List Record) :
    String × List String :=
  ("data/test.md",
   (buildSamplesTest [] df_test_set).flatMap
     (fun g => ("## intent:" ++ g.1) :: g.2.map (fun a => "- " ++ a)))

theorem addSampleDev_eq (acc : List (String × List String)) (l a : String) :
    addSampleDev acc l a = addSample acc l a := by
  induction acc with
  | nil => rfl
  | cons g rest ih =>
    obtain ⟨k, articles⟩ := g
    rw [addSampleDev, addSample, ih]

theorem addSampleTest_eq (acc : List (String × List String)) (l a : String) :
    addSampleTest acc l a = addSample acc l a := by
  induction acc with
  | nil => rfl
  | cons g rest ih =>
    obtain ⟨k, articles⟩ := g
    rw [addSampleTest, addSample, ih]

theorem buildSamplesDev_eq :
    ∀ (rows : List Record) (acc : List (String × List String)),
    buildSamplesDev acc rows = buildSamples acc rows := by
  intro rows
  induction rows with
  | nil => intro acc; rfl
  | cons r rest ih =>
    intro acc
    rw [buildSamplesDev, buildSamples, addSampleDev_eq, ih]

theorem buildSamplesTest_eq :
    ∀ (rows : List Record) (acc : List (String × List String)),
    buildSamplesTest acc rows = buildSamples acc rows := by
  intro rows
  induction rows with
  | nil => intro acc; rfl
  | cons r rest ih =>
    intro acc
    rw [buildSamplesTest, buildSamples, addSampleTest_eq, ih]

/-- Claim C9: the three Markdown-export routines compute identical
content for the same input dataframe and differ only in the filename
they write to (`data/train.md`, `data/dev.md`, `data/test.md`, which
are pairwise distinct). -/
theorem C9_markdown_exports_duplicates :
    (∀ df : List Record,
      (create_rasa_training_set df).2 = (create_rasa_dev_set df).2 ∧
      (create_rasa_dev_set df).2 = (create_rasa_test_set df).2) ∧
    (∀ df : List Record,
      (create_rasa_training_set df).1 = "data/train.md" ∧
      (create_rasa_dev_set df).1 = "data/dev.md" ∧
      (create_rasa_test_set df).1 = "data/test.md") ∧
    ("data/train.md" ≠ "data/dev.md" ∧ "data/dev.md" ≠ "data/test.md" ∧
      "data/train.md" ≠ "data/test.md") := by
  refine ⟨?_, fun df => ⟨rfl, rfl, rfl⟩, by decide, by decide, by decide⟩
  intro df
  constructor
  · show (buildSamples [] df).flatMap _ = (buildSamplesDev [] df).flatMap _
    rw [buildSamplesDev_eq]
  · show (buildSamplesDev [] df).flatMap _ = (buildSamplesTest [] df).flatMap _
    rw [buildSamplesDev_eq, buildSamplesTest_eq]

/-- A categorical distribution: the insertion-ordered dict mapping
label to probability (`doc.cats`, or a ground-truth one-hot dict). -/
abbrev CatDist := List (String × ℚ)

/-- The running maximum of a probability list (0 on the empty list,
which Python's `np.argmax` rejects instead). -/
def listMax : List ℚ → ℚ
  | [] => 0
  | [p] => p
  | p :: q :: rest => max p (listMax (q :: rest))

/-- Embeds `np.argmax(probs)` at source line 272: the index of the first
occurrence of the maximum (numpy's documented tie policy). -/
def argmaxIdx : List ℚ → ℕ
  | [] => 0
  | [_] => 0
  | p :: q :: rest =>
    if p < listMax (q :: rest) then argmaxIdx (q :: rest) + 1 else 0

/-- Source lines 265-273: `cats, probs = zip(*cats_probs.items())`
followed by `cats[np.argmax(probs)]`.  On the empty dict the Python
raises (the `zip` unpacking fails); the total embedding returns `""`
there, and every theorem below assumes a non-empty distribution. -/
def find_max_prob_cat (cats_probs : CatDist) : String :=
  (cats_probs.map Prod.fst).getD (argmaxIdx (cats_probs.map Prod.snd)) ""

/-- Source lines 276-295, with the delegated batched inference
`nlp.pipe(texts, batch_size=8)` abstracted as the parallel list
`preds` of predicted distributions, one per text in order.  Counts the
positions where the arg-max label of the true distribution equals the
arg-max label of the predicted one, and returns
`(correct / len(texts), correct, len(texts) - correct)`. -/
def evaluate_multiclass (texts : List String) (preds cats : List CatDist) :
    ℚ × ℕ × ℕ :=
  let correct := (preds.zip cats).countP
    (fun pc => find_max_prob_cat pc.2 == find_max_prob_cat pc.1)
  ((correct : ℚ) / texts.length, correct, texts.length - correct)

theorem listMax_ge :
    ∀ (probs : List ℚ) (j : Fin probs.length), probs.get j ≤ listMax probs := by
  intro probs
  induction probs using listMax.induct with
  | case1 => intro j; exact absurd j.isLt (by simp)
  | case2 p =>
    intro j
    match j with
    | ⟨0, h⟩ => simp [listMax]
  | case3 p q rest ih =>
    intro j
    rw [listMax]
    match j with
    | ⟨0, h⟩ => exact le_max_left _ _
    | ⟨j' + 1, h⟩ =>
      exact le_trans (ih ⟨j', by simpa using h⟩) (le_max_right _ _)

theorem argmaxIdx_lt :
    ∀ probs : List ℚ, probs ≠ [] → argmaxIdx probs < probs.length := by
  intro probs
  induction probs using listMax.induct with
  | case1 => intro h; exact absurd rfl h
  | case2 p => intro h; simp [argmaxIdx]
  | case3 p q rest ih =>
    intro h
    rw [argmaxIdx]
    by_cases hlt : p < listMax (q :: rest)
    · rw [if_pos hlt]
      have := ih (by simp)
      simp only [List.length_cons] at this ⊢
      omega
    · rw [if_neg hlt]
      simp

theorem argmaxIdx_get :
    ∀ (probs : List ℚ) (i : ℕ) (hi : i < probs.length),
    i = argmaxIdx probs → probs.get ⟨i, hi⟩ = listMax probs := by
  intro probs
  induction probs using listMax.induct with
  | case1 => intro i hi _; simp at hi
  | case2 p =>
    intro i hi heq
    match i, hi with
    | 0, _ => rfl
  | case3 p q rest ih =>
    intro i hi heq
    rw [argmaxIdx] at heq
    by_cases hlt : p < listMax (q :: rest)
    · rw [if_pos hlt] at heq
      match i, hi, heq with
      | i' + 1, hi, heq =>
        have hi' : i' < (q :: rest).length := by
          simp only [List.length_cons] at hi ⊢
          omega
        have : (p :: q :: rest).get ⟨i' + 1, hi⟩ = (q :: rest).get ⟨i', hi'⟩ :=
          rfl
        rw [this, ih i' hi' (by omega), listMax]
        exact (max_eq_right (le_of_lt hlt)).symm
    · rw [if_neg hlt] at heq
      subst heq
      show p = listMax (p :: q :: rest)
      rw [listMax]
      exact (max_eq_left (le_of_not_lt hlt)).symm

theorem argmaxIdx_first :
    ∀ (probs : List ℚ) (j : Fin probs.length), j.val < argmaxIdx probs →
    probs.get j < listMax probs := by
  intro probs
  induction probs using listMax.induct with
  | case1 => intro j; exact absurd j.isLt (by simp)
  | case2 p => intro j hj; simp [argmaxIdx] at hj
  | case3 p q rest ih =>
    intro j hj
    rw [argmaxIdx] at hj
    by_cases hlt : p < listMax (q :: rest)
    · rw [if_pos hlt] at hj
      rw [listMax, max_eq_right (le_of_lt hlt)]
      match j, hj with
      | ⟨0, h⟩, _ => exact hlt
      | ⟨j' + 1, h⟩, hj =>
        have hj' : j' + 1 < argmaxIdx (q :: rest) + 1 := by simpa using hj
        exact ih ⟨j', by simpa using h⟩
          (by simpa using Nat.lt_of_succ_lt_succ hj')
    · rw [if_neg hlt] at hj
      have hj' : j.val < 0 := by simpa using hj
      omega

/-- Claim C5: for parallel sequences of texts, predicted distributions
and ground-truth distributions, the evaluator counts the positions
whose true and predicted arg-max labels agree and returns
`(correct / n, correct, n - correct)` with `correct + wrong = n`; and
the arg-max label reduction of `find_max_prob_cat` picks the label at
the first index attaining the maximal probability (ties broken by first
index in iteration order). -/
theorem C5_evaluator_accuracy
    (texts : List String) (preds cats : List CatDist)
    (hp : preds.length = texts.length) (hc : cats.length = texts.length)
    (hne : texts ≠ []) :
    ((evaluate_multiclass texts preds cats).2.1 +
        (evaluate_multiclass texts preds cats).2.2 = texts.length ∧
      (evaluate_multiclass texts preds cats).2.1 =
        (preds.zip cats).countP
          (fun pc => find_max_prob_cat pc.2 == find_max_prob_cat pc.1) ∧
      (evaluate_multiclass texts preds cats).1 =
        ((evaluate_multiclass texts preds cats).2.1 : ℚ) / texts.length) ∧
    ∀ d : CatDist, d ≠ [] →
      ∃ i : Fin d.length,
        find_max_prob_cat d = (d.get i).1 ∧
        (∀ j : Fin d.length, (d.get j).2 ≤ (d.get i).2) ∧
        (∀ j : Fin d.length, j.val < i.val → (d.get j).2 < (d.get i).2) := by
  constructor
  · refine ⟨?_, rfl, rfl⟩
    have hcount : (preds.zip cats).countP
        (fun pc => find_max_prob_cat pc.2 == find_max_prob_cat pc.1) ≤
          texts.length := by
      calc (preds.zip cats).countP _ ≤ (preds.zip cats).length :=
            List.countP_le_length _
        _ ≤ texts.length := by
            rw [List.length_zip, hp, hc]
            exact min_le_left _ _
    show (preds.zip cats).countP _ + (texts.length - (preds.zip cats).countP _)
        = texts.length
    omega
  · intro d hd
    have hmapne : d.map Prod.snd ≠ [] := by
      simpa using hd
    have hlt : argmaxIdx (d.map Prod.snd) < d.length := by
      have := argmaxIdx_lt (d.map Prod.snd) hmapne
      simpa using this
    refine ⟨⟨argmaxIdx (d.map Prod.snd), hlt⟩, ?_, ?_, ?_⟩
    · rw [find_max_prob_cat]
      rw [List.getD_eq_getElem _ _ (by simpa using hlt)]
      simp [List.getElem_map]
    · intro j
      have hj : (d.map Prod.snd).get ⟨j.val, by simpa using j.isLt⟩ ≤
          listMax (d.map Prod.snd) := listMax_ge (d.map Prod.snd) _
      have hi : (d.map Prod.snd).get
          ⟨argmaxIdx (d.map Prod.snd), by simpa using hlt⟩ =
            listMax (d.map Prod.snd) :=
        argmaxIdx_get (d.map Prod.snd) _ _ rfl
      simp only [List.get_map] at hj hi
      rw [show (d.get j).2 = (d.get ⟨j.val, j.isLt⟩).2 by rfl] at *
      calc (d.get ⟨j.val, j.isLt⟩).2 ≤ listMax (d.map Prod.snd) := hj
        _ = (d.get ⟨argmaxIdx (d.map Prod.snd), hlt⟩).2 := hi.symm
    · intro j hjlt
      have hj : (d.map Prod.snd).get ⟨j.val, by simpa using j.isLt⟩ <
          listMax (d.map Prod.snd) :=
        argmaxIdx_first (d.map Prod.snd) _ (by simpa using hjlt)
      have hi : (d.map Prod.snd).get
          ⟨argmaxIdx (d.map Prod.snd), by simpa using hlt⟩ =
            listMax (d.map Prod.snd) :=
        argmaxIdx_get (d.map Prod.snd) _ _ rfl
      simp only [List.get_map] at hj hi
      calc (d.get ⟨j.val, j.isLt⟩).2 < listMax (d.map Prod.snd) := hj
        _ = (d.get ⟨argmaxIdx (d.map Prod.snd), hlt⟩).2 := hi.symm

/-- Witness for C5 at two concrete texts with concrete predicted and
true distributions. -/
theorem C5_evaluator_accuracy_witness :
    (([[("a", mkRat 7 10), ("b", mkRat 3 10)],
       [("a", mkRat 1 2), ("b", mkRat 1 2)]] : List CatDist).length =
        (["t1", "t2"] : List String).length) ∧
    (["t1", "t2"] : List String) ≠ [] ∧
    (evaluate_multiclass ["t1", "t2"]
        [[("a", mkRat 7 10), ("b", mkRat 3 10)],
         [("a", mkRat 1 2), ("b", mkRat 1 2)]]
        [[("a", 1), ("b", 0)], [("a", 0), ("b", 1)]]).2.1 +
      (evaluate_multiclass ["t1", "t2"]
        [[("a", mkRat 7 10), ("b", mkRat 3 10)],
         [("a", mkRat 1 2), ("b", mkRat 1 2)]]
        [[("a", 1), ("b", 0)], [("a", 0), ("b", 1)]]).2.2 = 2 :=
  ⟨by decide, by decide,
   ((C5_evaluator_accuracy ["t1", "t2"]
      [[("a", mkRat 7 10), ("b", mkRat 3 10)],
       [("a", mkRat 1 2), ("b", mkRat 1 2)]]
      [[("a", 1), ("b", 0)], [("a", 0), ("b", 1)]]
      (by decide) (by decide) (by decide)).1).1⟩

end BertFinetuner
